import Mathlib

/-!
A shallow embedding of `kinto/core/resource/schema.py` (request-schema
construction and validation for the kinto REST resource layer), together
with theorems about its behaviour.

The embedding follows the Python source closely:

* `querySchemaDeserialize` embeds `QuerySchema.deserialize` (declared
  schema values merged over inferred filter values).
* `permissionsDeserialize` embeds `PermissionsSchema.deserialize`.
* `deserializePatchOp` embeds `JsonPatchOperationSchema` run through a
  colander mapping with `unknown='raise'`.
* `bindDataNode` / `deserializeRecordData` embed the deferred `data`
  node of `RecordSchema`.
* `build_path` embeds the `build_path` closure of `RequestSchema.path`,
  including the id-generator resolution chain and the `TypeError` that
  `rid == current_resource_id + '_id'` raises when the resource name is
  absent.
* `positive_big_integer` embeds the `colander.Range` validator built
  from `POSTGRESQL_MAX_INTEGER_VALUE`.

Helper code of the repository that is outside the provided source file
(`kinto.core.utils.native_value`, `kinto.core.schema.FieldList`,
`kinto.core.schema.Any`, `kinto.core.storage.StorageBase`) is modelled
from the specification; each such definition says so in its doc comment.
-/

deriving instance DecidableEq for Except

/-- Scalar Python values that the querystring coercion can produce. -/
inductive PyScalar where
  | str (s : String)
  | int (n : Int)
  | bool (b : Bool)
  | null
deriving DecidableEq

/-- Values flowing through the schemas: scalars, and lists of scalars as
produced by the comma-splitting filters and by JSON payloads. -/
inductive PyVal where
  | scalar (v : PyScalar)
  | list (xs : List PyScalar)
deriving DecidableEq

/-- Python truthiness (`if not cstruct` checks in colander):
empty string, zero, `False`, `None` and the empty list are falsy. -/
def pyFalsy : PyVal → Bool
  | .scalar (.str s) => s == ""
  | .scalar (.int n) => n == 0
  | .scalar (.bool b) => !b
  | .scalar .null => true
  | .list xs => xs.isEmpty

/-- Lookup in an association list, the shallow embedding of a Python
`dict` access: the first entry with the given key wins. -/
def alookup {β : Type} (k : String) : List (String × β) → Option β
  | [] => none
  | (k', v) :: rest => if k' = k then some v else alookup k rest

/-- Test whether `p` is an initial segment of `s` (Python `str.startswith`). -/
def strHasPre (p s : String) : Bool := List.isPrefixOf p.data s.data

/-- Accumulating decimal parser over characters; fails on any non-digit. -/
def parseDigits (acc : Nat) : List Char → Option Nat
  | [] => some acc
  | c :: cs => if c.isDigit then parseDigits (10 * acc + (c.toNat - 48)) cs else none

/-- Parse a string of the integer grammar (optional leading minus then
one or more digits) into an integer. -/
def parseIntStr (s : String) : Option Int :=
  match s.data with
  | [] => none
  | ['-'] => none
  | '-' :: c :: cs => (parseDigits 0 (c :: cs)).map (fun n => -(n : Int))
  | cs => (parseDigits 0 cs).map (fun n => (n : Int))

/-- Modelled from the spec: `kinto.core.utils.native_value` is outside the
provided source file; the spec describes it as a deterministic literal
mapping taking `"true"`/`"false"` to booleans, a designated null token to
null, strings matching an integer grammar to integers, and leaving every
other token unchanged as a string. -/
def native_value (s : String) : PyScalar :=
  if s = "true" then .bool true
  else if s = "false" then .bool false
  else if s = "null" then .null
  else
    match parseIntStr s with
    | some n => .int n
    | none => .str s

/-- Lift `native_value` to arbitrary raw values: non-string inputs are
returned unchanged (the coercion never raises). -/
def nativePyVal : PyVal → PyVal
  | .scalar (.str s) => .scalar (native_value s)
  | v => v

/-- Split a character list at commas (Python `str.split(',')`): the empty
string yields one empty token. -/
def splitCommaChars : List Char → List (List Char)
  | [] => [[]]
  | c :: cs =>
    if c = ',' then [] :: splitCommaChars cs
    else
      match splitCommaChars cs with
      | [] => [[c]]
      | g :: gs => (c :: g) :: gs

/-- Modelled from the spec: `kinto.core.schema.FieldList` is outside the
provided source file; the spec describes it as splitting a raw string
value on commas into an ordered token sequence, and producing no sequence
on malformed (non-string) input, in which case the caller drops the field. -/
def fieldList : PyVal → Option (List String)
  | .scalar (.str s) => some ((splitCommaChars s.data).map (fun cs => String.mk cs))
  | _ => none

/-- One inferred filter entry of `QuerySchema.deserialize`: keys with an
`in_`/`exclude_` initial segment go through `FieldList` and element-wise
`native_value`; the field is dropped (`none`) when no list is produced;
other keys are coerced as scalars. -/
def inferredStep (k : String) (v : PyVal) : Option PyVal :=
  if strHasPre "in_" k || strHasPre "exclude_" k then
    (fieldList v).map (fun toks => PyVal.list (toks.map (fun t => native_value t)))
  else some (nativePyVal v)

/-- The inferred-filter pass of `QuerySchema.deserialize`: the loop
`for k, v in cstruct.items()` building `values`. -/
def inferredValues : List (String × PyVal) → List (String × PyVal)
  | [] => []
  | (k, v) :: rest =>
    match inferredStep k v with
    | some w => (k, w) :: inferredValues rest
    | none => inferredValues rest

/-- Python `dict` item assignment: overwrite an existing key in place,
otherwise append the new entry at the end. -/
def updateOne (m : List (String × PyVal)) (k : String) (v : PyVal) : List (String × PyVal) :=
  match m.any (fun p => p.1 == k) with
  | true => m.map (fun p => if p.1 = k then (k, v) else p)
  | false => m ++ [(k, v)]

/-- Python `dict.update`: fold every entry of the second mapping into the
first, overwriting overlapping keys. -/
def updateAll (m : List (String × PyVal)) : List (String × PyVal) → List (String × PyVal)
  | [] => m
  | (k, v) :: rest => updateAll (updateOne m k v) rest

/-- Embeds `QuerySchema.deserialize`.  The declared-schema stage
(`super().deserialize(cstruct)`, whose children depend on the concrete
subclass) is passed as a function; `none` stands for `colander.drop`.
The result is the inferred filter values overwritten by the declared
values (`values.update(schema_values)`). -/
def querySchemaDeserialize (declared : List (String × PyVal) → Option (List (String × PyVal)))
    (cstruct : List (String × PyVal)) : Option (List (String × PyVal)) :=
  match declared cstruct with
  | none => none
  | some sv => some (updateAll (inferredValues cstruct) sv)

/-- Failure raised by `PermissionsSchema.deserialize` when a closed set of
permissions is configured: the offending key and the allowed names. -/
inductive PermError where
  | notOneOf (val : String) (choices : List String)
deriving DecidableEq

/-- The membership loop of `PermissionsSchema.deserialize`
(`for perm in cstruct: colander.OneOf(choices=self.known_perms)(self, perm)`):
the first key outside `known` is reported. -/
def firstUnknownPerm (known : List String) : List (String × List String) → Option String
  | [] => none
  | (k, _) :: rest => if k ∈ known then firstUnknownPerm known rest else some k

/-- The mapping stage of `PermissionsSchema` with one drop-if-missing
string-sequence child per known permission: present entries pass through
unchanged in the children's order, absent ones are dropped. -/
def permChildren (known : List String) (cstruct : List (String × List String)) :
    List (String × List String) :=
  known.filterMap (fun p => (alookup p cstruct).map (fun v => (p, v)))

/-- Embeds `PermissionsSchema.deserialize` on mapping inputs whose values
are string sequences.  With a closed `known` set, every key is first
checked for membership (the first non-member raises `notOneOf` with the
full list of choices); with no `known` set, string-sequence values are
deserialized unchanged. -/
def permissionsDeserialize (known : List String) (cstruct : List (String × List String)) :
    Except PermError (List (String × List String)) :=
  match known with
  | [] => .ok cstruct
  | _ :: _ =>
    match firstUnknownPerm known cstruct with
    | some k => .error (.notOneOf k known)
    | none => .ok (permChildren known cstruct)

/-- Missing-value policy of a field of the caller-supplied `data`
sub-schema of `RecordSchema` (colander `missing`): required, a default
value, or drop. -/
inductive FieldMissing where
  | required
  | default (v : PyVal)
  | drop
deriving DecidableEq

/-- One declared field of a caller-supplied `data` sub-schema, modelled at
the interface the deferred `RecordSchema.data` binding exercises: its name
and its missing-value policy. -/
structure DataField where
  name : String
  missing : FieldMissing
deriving DecidableEq

/-- Structural failure of record validation: a required node, reported by
its name (colander `Invalid` with message `Required`). -/
inductive RecError where
  | required (field : String)
deriving DecidableEq

/-- colander deserialization of one mapping child: a present value passes
through; an absent one follows the field's missing policy. -/
def deserializeDataField (f : DataField) (c : Option PyVal) : Except RecError (Option PyVal) :=
  match c with
  | some v => .ok (some v)
  | none =>
    match f.missing with
    | .required => .error (.required f.name)
    | .default v => .ok (some v)
    | .drop => .ok none

/-- colander mapping deserialization over the declared fields: each child
is looked up in the cstruct and deserialized; dropped children are
omitted from the result. -/
def deserializeDataMap (fs : List DataField) (c : List (String × PyVal)) :
    Except RecError (List (String × PyVal)) :=
  match fs with
  | [] => .ok []
  | f :: rest =>
    match deserializeDataField f (alookup f.name c), deserializeDataMap rest c with
    | .error e, _ => .error e
    | .ok _, .error e => .error e
    | .ok none, .ok tail => .ok tail
    | .ok (some v), .ok tail => .ok ((f.name, v) :: tail)

/-- Missing policy of the `data` node itself: `required` before binding
decides otherwise, `drop` after the empty-record check succeeds. -/
inductive NodeMissing where
  | required
  | drop
deriving DecidableEq

/-- The `data` node of `RecordSchema` after binding: the caller-supplied
fields plus the node-level missing policy chosen by the deferred. -/
structure BoundData where
  fields : List DataField
  missing : NodeMissing
deriving DecidableEq

/-- Embeds the deferred `RecordSchema.data`: try `data.deserialize({})`;
on success set `data.missing = colander.drop` (and `data.default = {}`),
on `colander.Invalid` leave the node required. -/
def bindDataNode (fs : List DataField) : BoundData :=
  match deserializeDataMap fs [] with
  | .ok _ => ⟨fs, .drop⟩
  | .error _ => ⟨fs, .required⟩

/-- Deserialization of the record body's `data` child: a present mapping
is run through the data fields; an absent one follows the node's missing
policy — `required` raises `Invalid` naming the `data` node, `drop`
omits the child (`none`). -/
def deserializeRecordData (d : BoundData) (body_data : Option (List (String × PyVal))) :
    Except RecError (Option (List (String × PyVal))) :=
  match body_data with
  | some m =>
    match deserializeDataMap d.fields m with
    | .error e => .error e
    | .ok out => .ok (some out)
  | none =>
    match d.missing with
    | .required => .error (.required "data")
    | .drop => .ok none

/-- Word characters of the regex class `\w` (ASCII range, which is all the
claims exercise): letters, digits and underscore. -/
def isWordChar (c : Char) : Bool := c.isAlphanum || c == '_'

/-- Consume a maximal run of word characters (the greedy `\w*`). -/
def segRest : List Char → List Char
  | [] => []
  | c :: cs => if isWordChar c then segRest cs else c :: cs

/-- Consume as many `/\w*` segments as possible, fuel-bounded (each
iteration consumes at least the `/`, so the list length is enough fuel). -/
def segLoopFuel : Nat → List Char → List Char
  | 0, cs => cs
  | _ + 1, [] => []
  | fuel + 1, c :: cs => if c = '/' then segLoopFuel fuel (segRest cs) else c :: cs

/-- The remainder after greedily matching `(/\w*)*` at the start. -/
def segLoop (cs : List Char) : List Char := segLoopFuel cs.length cs

/-- Embeds `colander.Regex('(/\w*)+')` under Python `re.match` semantics:
`match` anchors at position 0 only and does not require the whole string
to be consumed.  The group must match at least once, and one iteration
`/\w*` succeeds at position 0 exactly when the first character is `/`
(`\w*` may be empty); later iterations never affect existence of a match.
So the validator accepts exactly the strings starting with `/`. -/
def rePointerMatch (s : String) : Bool :=
  match s.data with
  | '/' :: _ => true
  | _ => false

/-- Full-string membership in the pointer grammar `(/\w*)+`, the reading
the spec's words use: the whole string is one or more segments of `/`
followed by word characters.  Greedy consumption is complete here: after
a maximal `\w*` run the next character is not a word character, so a
shorter run could never enable a further `/` segment. -/
def fullPointerMatch (s : String) : Bool :=
  rePointerMatch s && (segLoop s.data).isEmpty

/-- The six JSON Patch operation literals of `op_validator`. -/
def opValues : List String := ["test", "add", "remove", "replace", "move", "copy"]

/-- The declared children of `JsonPatchOperationSchema`; every other key
is rejected by `colander.Mapping(unknown='raise')`. -/
def allowedPatchKeys : List String := ["op", "path", "from", "value"]

/-- Validation failure of a JSON Patch operation.  colander aggregates
sibling failures; this embedding reports the first in children order,
which does not change the accepted set. -/
inductive PatchErr where
  | notString (field : String)
  | required (field : String)
  | invalid (field : String)
  | unrecognizedKeys (keys : List String)
deriving DecidableEq

/-- `colander.String().deserialize`: falsy cstructs become null, strings
pass through, anything else is a type failure. -/
def strTypeDeser (c : PyVal) : Except Unit (Option String) :=
  match pyFalsy c with
  | true => .ok none
  | false =>
    match c with
    | .scalar (.str s) => .ok (some s)
    | _ => .error ()

/-- A string-typed schema node with a validator: type deserialization,
then the missing policy on a null result (required or drop), then the
validator on the value. -/
def strChild (name : String) (validator : String → Bool) (req : Bool) (c : Option PyVal) :
    Except PatchErr (Option (String × PyVal)) :=
  match strTypeDeser (c.getD (PyVal.scalar PyScalar.null)) with
  | .error _ => .error (.notString name)
  | .ok none =>
    match req with
    | true => .error (.required name)
    | false => .ok none
  | .ok (some s) =>
    match validator s with
    | true => .ok (some (name, PyVal.scalar (PyScalar.str s)))
    | false => .error (.invalid name)

/-- Modelled from the spec: `kinto.core.schema.Any` is outside the
provided source file; the spec describes the `value` child as an
arbitrary typed payload that is dropped when absent and otherwise kept
unchanged. -/
def anyChild (name : String) (c : Option PyVal) : Except PatchErr (Option (String × PyVal)) :=
  match c with
  | none => .ok none
  | some v => .ok (some (name, v))

/-- Combine the four child results in children order: the result mapping
keeps the non-dropped children, the first failing child is reported. -/
def combine4 (a b c d : Except PatchErr (Option (String × PyVal))) :
    Except PatchErr (List (String × PyVal)) :=
  match a, b, c, d with
  | .ok x, .ok y, .ok z, .ok w => .ok (List.filterMap id [x, y, z, w])
  | .error e, _, _, _ => .error e
  | .ok _, .error e, _, _ => .error e
  | .ok _, .ok _, .error e, _ => .error e
  | .ok _, .ok _, .ok _, .error e => .error e

/-- Embeds deserialization of one `JsonPatchOperationSchema` mapping:
keys outside the declared children raise `unrecognizedKeys`; otherwise
`op` (required, one of `opValues`), `path` (required, pointer regex),
`from` (optional, pointer regex) and `value` (optional, any payload) are
deserialized in order. -/
def deserializePatchOp (cstruct : List (String × PyVal)) :
    Except PatchErr (List (String × PyVal)) :=
  match (cstruct.filter (fun p => !(allowedPatchKeys.contains p.1))).isEmpty with
  | false =>
    .error (.unrecognizedKeys
      ((cstruct.filter (fun p => !(allowedPatchKeys.contains p.1))).map Prod.fst))
  | true =>
    combine4 (strChild "op" (fun s => opValues.contains s) true (alookup "op" cstruct))
      (strChild "path" rePointerMatch true (alookup "path" cstruct))
      (strChild "from" rePointerMatch false (alookup "from" cstruct))
      (anyChild "value" (alookup "value" cstruct))

/-- Acceptance condition of one string child, phrased on the raw cstruct:
absent or falsy values are acceptable exactly for optional children,
non-strings never pass, strings must pass the validator. -/
def strFieldOk (req : Bool) (validator : String → Bool) : Option PyVal → Bool
  | none => !req
  | some v =>
    match pyFalsy v with
    | true => !req
    | false =>
      match v with
      | .scalar (.str s) => validator s
      | _ => false

/-- The set of patch-operation mappings `deserializePatchOp` accepts,
written as a direct predicate on the input: all keys declared, a valid
required `op`, a required `path` with a pointer-matching value, and an
optional `from` that must pointer-match when present and non-falsy. -/
def patchOpAccepts (cstruct : List (String × PyVal)) : Bool :=
  (cstruct.all (fun p => allowedPatchKeys.contains p.1))
  && strFieldOk true (fun s => opValues.contains s) (alookup "op" cstruct)
  && strFieldOk true rePointerMatch (alookup "path" cstruct)
  && strFieldOk false rePointerMatch (alookup "from" cstruct)

/-- One resolved placeholder of the path schema: the output field name and
the regex pattern constraining it. -/
structure PathField where
  name : String
  regexp : String
deriving DecidableEq

/-- Modelled from the spec: `kinto.core.storage.StorageBase` is outside the
provided source file; only its baseline id generator's `regexp` property
is specified, so a representative pattern is fixed here and the theorems
treat it symbolically. -/
def StorageBase_id_generator_regexp : String := "[a-zA-Z0-9_-]+"

/-- Python `or` on optional setting strings: `None` and the empty string
are falsy and fall through to the second operand. -/
def pyOrStr : Option String → Option String → Option String
  | some s, b => if s = "" then b else some s
  | none, b => b

/-- Embeds the generator-resolution `try` block of `build_path`: the
setting `<rid>_generator` or else `id_generator` names a generator whose
class is found by `pydoc.locate` in the environment `env` (which yields
the located object's `regexp`, or `none` when location fails or the
object lacks the attribute); every `AttributeError` on the way — absent
registry, no setting, failed location, missing attribute — falls back to
the baseline `StorageBase.id_generator.regexp`. -/
def resolveRegexp (env : String → Option String) (gens : Option (List (String × String)))
    (rid : String) : String :=
  match gens with
  | none => StorageBase_id_generator_regexp
  | some g =>
    match pyOrStr (alookup (rid ++ "_generator") g) (alookup "id_generator" g) with
    | none => StorageBase_id_generator_regexp
    | some nm =>
      match env nm with
      | none => StorageBase_id_generator_regexp
      | some rx => rx

/-- The placeholder renaming of `build_path`: the bound resource's own id
placeholder `<resource>_id` becomes the literal field name `id`. -/
def renameRid (r rid : String) : String :=
  if rid = r ++ "_id" then "id" else rid

/-- colander `SchemaNode.__setitem__`: replace the child with the same
name in place, otherwise append. -/
def setField (fs : List PathField) (f : PathField) : List PathField :=
  match fs.any (fun g => g.name == f.name) with
  | true => fs.map (fun g => if g.name = f.name then f else g)
  | false => fs ++ [f]

/-- The `for rid in resource_ids` loop of `build_path`: resolve the regex,
rename the bound resource's own placeholder to `id`, and add the
string-typed regex-constrained node to the path schema. -/
def buildFieldsLoop (env : String → Option String) (gens : Option (List (String × String)))
    (r : String) (acc : List PathField) : List String → List PathField
  | [] => acc
  | rid :: rest =>
    buildFieldsLoop env gens r
      (setField acc ⟨renameRid r rid, resolveRegexp env gens rid⟩) rest

/-- Replace every occurrence of the literal `{id}` by
`{<resource>_id}` (Python `str.replace`, left to right). -/
def replaceIdChars (r : String) : List Char → List Char
  | '{' :: 'i' :: 'd' :: '}' :: rest =>
    '{' :: (r.data ++ ('_' :: 'i' :: 'd' :: '}' :: replaceIdChars r rest))
  | c :: rest => c :: replaceIdChars r rest
  | [] => []

/-- Scan for the closing brace of a placeholder: the body before it and
the remainder after it (the non-greedy `.*?` of `re.findall('\{.*?\}', …)`). -/
def takeUntilRBrace : List Char → Option (List Char × List Char)
  | [] => none
  | '}' :: cs => some ([], cs)
  | c :: cs => (takeUntilRBrace cs).map (fun br => (c :: br.1, br.2))

/-- Fuel-bounded scan extracting each `{…}` placeholder body in order
(each step consumes at least one character, so length is enough fuel). -/
def extractPHFuel : Nat → List Char → List String
  | 0, _ => []
  | _ + 1, [] => []
  | fuel + 1, c :: cs =>
    if c = '{' then
      match takeUntilRBrace cs with
      | some br => String.mk br.1 :: extractPHFuel fuel br.2
      | none => []
    else extractPHFuel fuel cs

/-- All placeholder names of a route template, brackets stripped
(`[name[1:-1] for name in re.findall('\{.*?\}', path)]`). -/
def extractPH (cs : List Char) : List String := extractPHFuel cs.length cs

/-- Outcome of one `build_path` invocation: still deferred (no path in
the binding context), a bound path schema, or the uncaught `TypeError`
raised by `rid == current_resource_id + '_id'` when `resource_name` is
`None` and the template has at least one placeholder. -/
inductive BindResult where
  | deferred
  | bound (fields : List PathField)
  | typeError
deriving DecidableEq

/-- Embeds the `build_path` closure of `RequestSchema.path`: an absent or
empty path keeps the node deferred; otherwise `{id}` is rewritten to the
bound resource's own placeholder, the placeholders are extracted, and one
string node per placeholder is built.  With no resource name the loop
body's `current_resource_id + '_id'` concatenation raises `TypeError` on
the first placeholder. -/
def build_path (env : String → Option String) (gens : Option (List (String × String)))
    (resource_name : Option String) (path : Option String) : BindResult :=
  match path with
  | none => .deferred
  | some p0 =>
    if p0 = "" then .deferred
    else
      match resource_name with
      | some r =>
        let p1 := if r = "" then p0 else String.mk (replaceIdChars r p0.data)
        .bound (buildFieldsLoop env gens r [] (extractPH p1.data))
      | none =>
        if (extractPH p0.data).isEmpty then .bound []
        else .typeError

/-- Binding state of the `path` node of `RequestSchema`: deferred until a
context with a path arrives, then a concrete path schema. -/
inductive PathState where
  | unbound
  | bound (fields : List PathField)
deriving DecidableEq

/-- A binding context (the colander `bind` kwargs the deferred receives):
the cornice path, the resource name, and the id-generator settings. -/
structure BindCtx where
  path : Option String
  resource_name : Option String
  id_generators : Option (List (String × String))

/-- One colander `bind` step on the path node: a deferred node runs
`build_path` (staying deferred without a path, raising on the `TypeError`
case); an already-bound node is no longer deferred and is left unchanged. -/
def bindPathStep (env : String → Option String) (ctx : BindCtx) :
    PathState → Except Unit PathState
  | .unbound =>
    match build_path env ctx.id_generators ctx.resource_name ctx.path with
    | .deferred => .ok .unbound
    | .bound fs => .ok (.bound fs)
    | .typeError => .error ()
  | .bound fs => .ok (.bound fs)

/-- `POSTGRESQL_MAX_INTEGER_VALUE = 2**64 // 2` from the source. -/
def POSTGRESQL_MAX_INTEGER_VALUE : Int := 2 ^ 64 / 2

/-- `colander.Range(min=a, max=b)`: both bounds inclusive. -/
def rangeValid (lo hi v : Int) : Bool := decide (lo ≤ v) && decide (v ≤ hi)

/-- Embeds `positive_big_integer = colander.Range(min=0,
max=POSTGRESQL_MAX_INTEGER_VALUE)`. -/
def positive_big_integer (v : Int) : Bool :=
  rangeValid 0 POSTGRESQL_MAX_INTEGER_VALUE v

/-! ### Association-list lemmas -/

theorem alookup_cons {β : Type} (k k' : String) (v : β) (l : List (String × β)) :
    alookup k ((k', v) :: l) = if k' = k then some v else alookup k l := rfl

theorem alookup_none_of_not_mem_keys {β : Type} {k : String} {l : List (String × β)}
    (h : k ∉ l.map Prod.fst) : alookup k l = none := by
  induction l with
  | nil => rfl
  | cons p rest ih =>
    obtain ⟨k₁, v₁⟩ := p
    simp only [List.map_cons, List.mem_cons, not_or] at h
    rw [alookup_cons, if_neg (fun he => h.1 he.symm)]
    exact ih h.2

theorem mem_of_alookup_some {β : Type} {k : String} {v : β} {l : List (String × β)}
    (h : alookup k l = some v) : (k, v) ∈ l := by
  induction l with
  | nil => exact absurd h (by simp [alookup])
  | cons p rest ih =>
    obtain ⟨k₁, v₁⟩ := p
    rw [alookup_cons] at h
    by_cases he : k₁ = k
    · rw [if_pos he] at h
      injection h with h
      subst he
      subst h
      exact List.mem_cons_self _ _
    · rw [if_neg he] at h
      exact List.mem_cons_of_mem _ (ih h)

theorem alookup_isSome_of_mem {β : Type} {k : String} {v : β} {l : List (String × β)}
    (h : (k, v) ∈ l) : (alookup k l).isSome = true := by
  induction l with
  | nil => simp at h
  | cons p rest ih =>
    obtain ⟨k₁, v₁⟩ := p
    rw [alookup_cons]
    by_cases he : k₁ = k
    · rw [if_pos he]
      rfl
    · rw [if_neg he]
      rcases List.mem_cons.mp h with hh | hh
      · injection hh with h1 h2
        exact absurd h1.symm he
      · exact ih hh

theorem alookup_append {β : Type} (k : String) (l₁ l₂ : List (String × β)) :
    alookup k (l₁ ++ l₂)
      = match alookup k l₁ with
        | some v => some v
        | none => alookup k l₂ := by
  induction l₁ with
  | nil => rfl
  | cons p rest ih =>
    obtain ⟨k₁, v₁⟩ := p
    rw [List.cons_append, alookup_cons, alookup_cons]
    by_cases he : k₁ = k
    · rw [if_pos he, if_pos he]
    · rw [if_neg he, if_neg he, ih]

theorem any_key_eq_false_of_alookup_none {k : String} {m : List (String × PyVal)}
    (h : alookup k m = none) : m.any (fun p => p.1 == k) = false := by
  induction m with
  | nil => rfl
  | cons p rest ih =>
    obtain ⟨k₁, v₁⟩ := p
    rw [alookup_cons] at h
    by_cases he : k₁ = k
    · rw [if_pos he] at h
      cases h
    · rw [if_neg he] at h
      simp only [List.any_cons, ih h, Bool.or_false]
      exact beq_eq_false_iff_ne.mpr he

/-! ### `updateOne` / `updateAll` lemmas (Python dict update) -/

theorem alookup_map_set_self (k : String) (v : PyVal) (m : List (String × PyVal)) :
    alookup k (m.map (fun p => if p.1 = k then (k, v) else p))
      = (alookup k m).map (fun _ => v) := by
  induction m with
  | nil => rfl
  | cons p rest ih =>
    obtain ⟨k₁, v₁⟩ := p
    by_cases he : k₁ = k
    · simp only [List.map_cons, if_pos he, alookup_cons, if_pos rfl, if_pos he]
      rfl
    · simp only [List.map_cons, if_neg he, alookup_cons, if_neg he]
      exact ih

theorem alookup_map_set_ne {k' k : String} (h : k' ≠ k) (v : PyVal)
    (m : List (String × PyVal)) :
    alookup k (m.map (fun p => if p.1 = k' then (k', v) else p)) = alookup k m := by
  induction m with
  | nil => rfl
  | cons p rest ih =>
    obtain ⟨k₁, v₁⟩ := p
    by_cases he : k₁ = k'
    · simp only [List.map_cons, if_pos he, alookup_cons, if_neg h, if_neg (he ▸ h)]
      exact ih
    · simp only [List.map_cons, if_neg he, alookup_cons]
      by_cases hk : k₁ = k
      · rw [if_pos hk, if_pos hk]
      · rw [if_neg hk, if_neg hk]
        exact ih

theorem alookup_updateOne_self (k : String) (v : PyVal) (m : List (String × PyVal)) :
    alookup k (updateOne m k v) = some v := by
  rcases ha : m.any (fun p => p.1 == k) with _ | _
  · simp only [updateOne, ha]
    rw [alookup_append]
    have hm : alookup k m = none := by
      rcases hm : alookup k m with _ | w
      · rfl
      · rw [List.any_eq_false] at ha
        have := ha _ (mem_of_alookup_some hm)
        simp at this
    rw [hm, alookup_cons, if_pos rfl]
  · simp only [updateOne, ha]
    rw [alookup_map_set_self]
    rcases hm : alookup k m with _ | w
    · rw [List.any_eq_true] at ha
      obtain ⟨p, hp, hbe⟩ := ha
      obtain ⟨k₁, v₁⟩ := p
      rw [beq_iff_eq] at hbe
      subst hbe
      have := alookup_isSome_of_mem hp
      rw [hm] at this
      cases this
    · rfl

theorem alookup_updateOne_ne {k' k : String} (h : k' ≠ k) (v : PyVal)
    (m : List (String × PyVal)) :
    alookup k (updateOne m k' v) = alookup k m := by
  rcases ha : m.any (fun p => p.1 == k') with _ | _
  · simp only [updateOne, ha]
    rw [alookup_append]
    rcases hm : alookup k m with _ | w
    · rw [alookup_cons, if_neg h]
      rfl
    · rfl
  · simp only [updateOne, ha]
    exact alookup_map_set_ne h v m

theorem alookup_updateAll_of_none {k : String} {sv : List (String × PyVal)}
    (h : alookup k sv = none) (m : List (String × PyVal)) :
    alookup k (updateAll m sv) = alookup k m := by
  induction sv generalizing m with
  | nil => rfl
  | cons p rest ih =>
    obtain ⟨k₁, v₁⟩ := p
    rw [alookup_cons] at h
    by_cases he : k₁ = k
    · rw [if_pos he] at h
      cases h
    · rw [if_neg he] at h
      simp only [updateAll]
      rw [ih h, alookup_updateOne_ne he]

theorem alookup_updateAll_of_some {k : String} {dv : PyVal} {sv : List (String × PyVal)}
    (hnd : (sv.map Prod.fst).Nodup) (h : alookup k sv = some dv)
    (m : List (String × PyVal)) :
    alookup k (updateAll m sv) = some dv := by
  induction sv generalizing m with
  | nil => exact absurd h (by simp [alookup])
  | cons p rest ih =>
    obtain ⟨k₁, v₁⟩ := p
    simp only [List.map_cons, List.nodup_cons] at hnd
    rw [alookup_cons] at h
    simp only [updateAll]
    by_cases he : k₁ = k
    · rw [if_pos he] at h
      injection h with h
      subst he
      subst h
      rw [alookup_updateAll_of_none (alookup_none_of_not_mem_keys hnd.1),
        alookup_updateOne_self]
    · rw [if_neg he] at h
      exact ih hnd.2 h _

/-! ### Inferred-filter lemmas -/

theorem alookup_inferred_none {k : String} {l : List (String × PyVal)}
    (h : k ∉ l.map Prod.fst) : alookup k (inferredValues l) = none := by
  induction l with
  | nil => rfl
  | cons p rest ih =>
    obtain ⟨k₁, v₁⟩ := p
    simp only [List.map_cons, List.mem_cons, not_or] at h
    rcases hs : inferredStep k₁ v₁ with _ | w
    · simp only [inferredValues, hs]
      exact ih h.2
    · simp only [inferredValues, hs]
      rw [alookup_cons, if_neg (fun he => h.1 he.symm)]
      exact ih h.2

theorem alookup_inferred {k : String} {v : PyVal} {l : List (String × PyVal)}
    (hnd : (l.map Prod.fst).Nodup) (h : alookup k l = some v) :
    alookup k (inferredValues l) = inferredStep k v := by
  induction l with
  | nil => exact absurd h (by simp [alookup])
  | cons p rest ih =>
    obtain ⟨k₁, v₁⟩ := p
    simp only [List.map_cons, List.nodup_cons] at hnd
    rw [alookup_cons] at h
    by_cases he : k₁ = k
    · rw [if_pos he] at h
      injection h with h
      subst he
      subst h
      rcases hs : inferredStep k₁ v₁ with _ | w
      · simp only [inferredValues, hs]
        rw [alookup_inferred_none hnd.1]
      · simp only [inferredValues, hs]
        rw [alookup_cons, if_pos rfl]
    · rw [if_neg he] at h
      rcases hs : inferredStep k₁ v₁ with _ | w
      · simp only [inferredValues, hs]
        exact ih hnd.2 h
      · simp only [inferredValues, hs]
        rw [alookup_cons, if_neg he]
        exact ih hnd.2 h

/-! ### Claim C2: declared querystring values overwrite inferred filters -/

/-- C2.  For every raw querystring mapping, `QuerySchema.deserialize`
returns the inferred filter values overwritten by the declared-schema
values: any key the declared stage produced carries the declared value in
the result, and every key it did not produce carries its inferred value.
(`kinto.core.utils.native_value` and `kinto.core.schema.FieldList`, which
the inferred stage uses, are outside the provided source and modelled
from the spec.) -/
theorem c2_declared_overwrites_inferred
    (declared : List (String × PyVal) → Option (List (String × PyVal)))
    (cstruct sv : List (String × PyVal)) (k : String) (dv : PyVal)
    (hd : declared cstruct = some sv)
    (hnd : (sv.map Prod.fst).Nodup)
    (hk : alookup k sv = some dv) :
    ∃ out, querySchemaDeserialize declared cstruct = some out
      ∧ alookup k out = some dv
      ∧ ∀ k', alookup k' sv = none →
          alookup k' out = alookup k' (inferredValues cstruct) := by
  refine ⟨updateAll (inferredValues cstruct) sv, ?_, ?_, ?_⟩
  · simp only [querySchemaDeserialize, hd]
  · exact alookup_updateAll_of_some hnd hk _
  · intro k' hk'
    exact alookup_updateAll_of_none hk' _

/-- C2 witness: on `?in_x=a,b&deleted=true` with a declared stage
producing a boolean `deleted`, the declared value wins for `deleted`. -/
theorem c2_witness :
    ∃ out, querySchemaDeserialize (fun _ => some [("deleted", PyVal.scalar (.bool true))])
        [("in_x", PyVal.scalar (.str "a,b")), ("deleted", PyVal.scalar (.str "true"))]
        = some out
      ∧ alookup "deleted" out = some (PyVal.scalar (.bool true))
      ∧ ∀ k', alookup k' [("deleted", PyVal.scalar (.bool true))] = none →
          alookup k' out = alookup k'
            (inferredValues [("in_x", PyVal.scalar (.str "a,b")),
              ("deleted", PyVal.scalar (.str "true"))]) :=
  c2_declared_overwrites_inferred _ _ _ "deleted" _ rfl (by decide) (by decide)

/-! ### Claim C7: malformed `in_`/`exclude_` filters are dropped silently -/

/-- C7.  For a querystring key with an `in_`/`exclude_` initial segment
that the declared stage does not produce: when `FieldList` yields no list
the key is silently absent from the successful result, and when it yields
tokens the result maps the key to the comma-split tokens coerced
element-wise by `native_value`.  (`FieldList` and `native_value` are
outside the provided source and modelled from the spec.) -/
theorem c7_malformed_filter_dropped
    (declared : List (String × PyVal) → Option (List (String × PyVal)))
    (cstruct sv : List (String × PyVal)) (k : String) (v : PyVal)
    (hpre : strHasPre "in_" k = true ∨ strHasPre "exclude_" k = true)
    (hnd : (cstruct.map Prod.fst).Nodup)
    (hc : alookup k cstruct = some v)
    (hd : declared cstruct = some sv)
    (hsv : alookup k sv = none) :
    (fieldList v = none →
      ∃ out, querySchemaDeserialize declared cstruct = some out
        ∧ alookup k out = none)
    ∧ ∀ toks, fieldList v = some toks →
        ∃ out, querySchemaDeserialize declared cstruct = some out
          ∧ alookup k out = some (PyVal.list (toks.map (fun t => native_value t))) := by
  have hstep : alookup k (updateAll (inferredValues cstruct) sv) = inferredStep k v := by
    rw [alookup_updateAll_of_none hsv, alookup_inferred hnd hc]
  have hcond : (strHasPre "in_" k || strHasPre "exclude_" k) = true := by
    rcases hpre with h | h
    · rw [h, Bool.true_or]
    · rw [h, Bool.or_true]
  constructor
  · intro hfl
    refine ⟨updateAll (inferredValues cstruct) sv, ?_, ?_⟩
    · simp only [querySchemaDeserialize, hd]
    · rw [hstep]
      simp only [inferredStep, hcond, if_pos, hfl]
      rfl
  · intro toks hfl
    refine ⟨updateAll (inferredValues cstruct) sv, ?_, ?_⟩
    · simp only [querySchemaDeserialize, hd]
    · rw [hstep]
      simp only [inferredStep, hcond, if_pos, hfl]
      rfl

/-- C7 witness: a repeated `in_x` parameter (a list, not a string) is
dropped from the successful result, while a well-formed `in_y=a,2`
deserializes to the coerced token list. -/
theorem c7_witness :
    (∃ out, querySchemaDeserialize (fun _ => some [])
        [("in_x", PyVal.list [.str "a"])] = some out
      ∧ alookup "in_x" out = none)
    ∧ ∃ out, querySchemaDeserialize (fun _ => some [])
        [("in_y", PyVal.scalar (.str "a,2"))] = some out
      ∧ alookup "in_y" out
          = some (PyVal.list (["a", "2"].map (fun t => native_value t))) := by
  constructor
  · exact (c7_malformed_filter_dropped (fun _ => some []) [("in_x", PyVal.list [.str "a"])]
      [] "in_x" (PyVal.list [.str "a"]) (Or.inl (by decide)) (by decide)
      (by decide) rfl rfl).1 rfl
  · exact (c7_malformed_filter_dropped (fun _ => some [])
      [("in_y", PyVal.scalar (.str "a,2"))] [] "in_y" (PyVal.scalar (.str "a,2"))
      (Or.inl (by decide)) (by decide) (by decide) rfl rfl).2 ["a", "2"] (by decide)

/-! ### Permissions lemmas and claim C5 -/

theorem firstUnknownPerm_none_iff (known : List String) (l : List (String × List String)) :
    firstUnknownPerm known l = none ↔ ∀ q ∈ l, q.1 ∈ known := by
  induction l with
  | nil => simp [firstUnknownPerm]
  | cons p rest ih =>
    obtain ⟨k₁, v₁⟩ := p
    simp only [firstUnknownPerm]
    by_cases hm : k₁ ∈ known
    · rw [if_pos hm, ih]
      constructor
      · intro h q hq
        rcases List.mem_cons.mp hq with rfl | hq
        · exact hm
        · exact h q hq
      · intro h q hq
        exact h q (List.mem_cons_of_mem _ hq)
    · rw [if_neg hm]
      constructor
      · intro h
        cases h
      · intro h
        exact absurd (h (k₁, v₁) (List.mem_cons_self _ _)) hm

theorem firstUnknownPerm_some_not_mem {known : List String}
    {l : List (String × List String)} {k : String}
    (h : firstUnknownPerm known l = some k) : k ∉ known := by
  induction l with
  | nil => cases h
  | cons p rest ih =>
    obtain ⟨k₁, v₁⟩ := p
    simp only [firstUnknownPerm] at h
    by_cases hm : k₁ ∈ known
    · rw [if_pos hm] at h
      exact ih h
    · rw [if_neg hm] at h
      injection h with h
      subst h
      exact hm

theorem alookup_permChildren (known : List String) (cstruct : List (String × List String))
    (k : String) :
    alookup k (permChildren known cstruct)
      = if k ∈ known then alookup k cstruct else none := by
  induction known with
  | nil => simp [permChildren, alookup]
  | cons p rest ih =>
    simp only [permChildren] at ih ⊢
    rcases hv : alookup p cstruct with _ | v
    · rw [List.filterMap_cons, hv]
      simp only [Option.map_none']
      rw [ih]
      by_cases he : p = k
      · subst he
        rw [hv]
        simp [List.mem_cons]
      · have hkp : ¬ k = p := fun h => he h.symm
        simp [List.mem_cons, hkp]
    · rw [List.filterMap_cons, hv]
      simp only [Option.map_some']
      rw [alookup_cons]
      by_cases he : p = k
      · subst he
        rw [if_pos rfl]
        simp [List.mem_cons, hv]
      · rw [if_neg he, ih]
        have hkp : ¬ k = p := fun h => he h.symm
        simp [List.mem_cons, hkp]

/-- C5.  With a non-empty closed `known_perms`, `PermissionsSchema`
deserialization fails on any input containing a key outside the set,
reporting an invalid key together with the full list of allowed names;
and on inputs whose keys are all members with string-sequence values it
succeeds and maps every key exactly as the input does. -/
theorem c5_permissions_validation (known : List String)
    (cstruct : List (String × List String)) (hk : known ≠ []) :
    ((∃ q ∈ cstruct, q.1 ∉ known) →
      ∃ bad, bad ∉ known
        ∧ permissionsDeserialize known cstruct = .error (.notOneOf bad known))
    ∧ ((∀ q ∈ cstruct, q.1 ∈ known) →
      ∃ out, permissionsDeserialize known cstruct = .ok out
        ∧ ∀ k, alookup k out = alookup k cstruct) := by
  rcases known with _ | ⟨p0, krest⟩
  · exact absurd rfl hk
  constructor
  · rintro ⟨q, hq, hqn⟩
    rcases hf : firstUnknownPerm (p0 :: krest) cstruct with _ | bad
    · exact absurd ((firstUnknownPerm_none_iff _ _).mp hf q hq) hqn
    · exact ⟨bad, firstUnknownPerm_some_not_mem hf,
        by simp [permissionsDeserialize, hf]⟩
  · intro h
    have hf : firstUnknownPerm (p0 :: krest) cstruct = none :=
      (firstUnknownPerm_none_iff _ _).mpr h
    refine ⟨permChildren (p0 :: krest) cstruct,
      by simp [permissionsDeserialize, hf], ?_⟩
    intro k
    rw [alookup_permChildren]
    by_cases hm : k ∈ p0 :: krest
    · rw [if_pos hm]
    · rw [if_neg hm]
      rcases hc : alookup k cstruct with _ | v
      · rfl
      · exact absurd (h _ (mem_of_alookup_some hc)) hm

/-- C5 witness: with `known_perms = ("read", "write")`, the input
`{"delete": […]}` fails enumerating both allowed names, and
`{"read": ["fxa:abc"]}` deserializes to itself. -/
theorem c5_witness :
    (∃ bad, bad ∉ ["read", "write"]
      ∧ permissionsDeserialize ["read", "write"] [("delete", ["fxa:x"])]
          = .error (.notOneOf bad ["read", "write"]))
    ∧ ∃ out, permissionsDeserialize ["read", "write"] [("read", ["fxa:abc"])] = .ok out
        ∧ ∀ k, alookup k out = alookup k [("read", ["fxa:abc"])] := by
  constructor
  · exact (c5_permissions_validation ["read", "write"] [("delete", ["fxa:x"])]
      (by decide)).1 ⟨("delete", ["fxa:x"]), by decide, by decide⟩
  · exact (c5_permissions_validation ["read", "write"] [("read", ["fxa:abc"])]
      (by decide)).2 (by decide)

/-! ### Record `data` binding: claim C4 -/

theorem deserializeDataMap_error_of_required {fs : List DataField}
    (h : ∃ f, f ∈ fs ∧ f.missing = FieldMissing.required) :
    ∃ e, deserializeDataMap fs [] = .error e := by
  induction fs with
  | nil =>
    obtain ⟨f, hf, _⟩ := h
    simp at hf
  | cons f0 rest ih =>
    rcases hm : f0.missing with _ | v | _
    · exact ⟨.required f0.name,
        by simp [deserializeDataMap, deserializeDataField, alookup, hm]⟩
    · obtain ⟨f, hf, hreq⟩ := h
      rcases List.mem_cons.mp hf with rfl | hf'
      · rw [hm] at hreq
        cases hreq
      · obtain ⟨e, he⟩ := ih ⟨f, hf', hreq⟩
        exact ⟨e, by simp [deserializeDataMap, deserializeDataField, alookup, hm, he]⟩
    · obtain ⟨f, hf, hreq⟩ := h
      rcases List.mem_cons.mp hf with rfl | hf'
      · rw [hm] at hreq
        cases hreq
      · obtain ⟨e, he⟩ := ih ⟨f, hf', hreq⟩
        exact ⟨e, by simp [deserializeDataMap, deserializeDataField, alookup, hm, he]⟩

/-- C4 (amended).  If the caller-supplied `data` sub-schema deserializes
the empty object, the deferred binding makes the node droppable and an
absent body validates successfully with the `data` child omitted from the
result; if some field is required, the empty-object check fails, the node
stays required, and an absent body fails with a structural error naming
the `data` node (not the individual required field). -/
theorem c4_empty_data_optional (fs : List DataField) :
    (∀ m, deserializeDataMap fs [] = .ok m →
      deserializeRecordData (bindDataNode fs) none = .ok none)
    ∧ ((∃ f, f ∈ fs ∧ f.missing = FieldMissing.required) →
      deserializeRecordData (bindDataNode fs) none = .error (.required "data")) := by
  constructor
  · intro m hm
    simp [bindDataNode, hm, deserializeRecordData]
  · intro h
    obtain ⟨e, he⟩ := deserializeDataMap_error_of_required h
    simp [bindDataNode, he, deserializeRecordData]

/-- C4 counterexample: with a data schema whose single field `reference`
is required, an absent body fails with an error naming the `data` node,
not the required field `reference` as the claim states. -/
theorem c4_counterexample :
    deserializeRecordData (bindDataNode [⟨"reference", FieldMissing.required⟩]) none
      = .error (.required "data")
    ∧ RecError.required "data" ≠ RecError.required "reference" := by
  decide

/-- C4 witness: a one-field schema with a default makes the absent body
validate (data dropped); a one-field required schema makes it fail naming
`data`. -/
theorem c4_witness :
    deserializeRecordData
        (bindDataNode [⟨"title", FieldMissing.default (PyVal.scalar (.str "t"))⟩]) none
      = .ok none
    ∧ deserializeRecordData (bindDataNode [⟨"ref", FieldMissing.required⟩]) none
      = .error (.required "data") := by
  constructor
  · exact (c4_empty_data_optional _).1 [("title", PyVal.scalar (.str "t"))] (by decide)
  · exact (c4_empty_data_optional _).2 ⟨⟨"ref", FieldMissing.required⟩, by decide, rfl⟩

/-! ### Claim C9: the reserved-integer range bound -/

/-- C9.  The `positive_big_integer` validator shared by `_limit`,
`_since`, `_to`, `_before` and `last_modified` accepts the full inclusive
range up to `2^63` — one more than the claimed (and PostgreSQL) maximum
`2^63 - 1`, since `colander.Range` bounds are inclusive and
`POSTGRESQL_MAX_INTEGER_VALUE = 2**64 // 2 = 2^63` — while rejecting
negatives as claimed. -/
theorem c9_range_accepts_two_pow_63 :
    positive_big_integer 9223372036854775808 = true
    ∧ positive_big_integer 9223372036854775807 = true
    ∧ positive_big_integer 0 = true
    ∧ positive_big_integer (-1) = false
    ∧ (9223372036854775808 : Int) = 2 ^ 63 := by
  decide

/-! ### JSON Patch operation lemmas and claims C6, C10 -/

theorem filter_bnot_isEmpty {α : Type} (q : α → Bool) (l : List α) :
    (l.filter (fun a => !(q a))).isEmpty = l.all q := by
  induction l with
  | nil => rfl
  | cons a rest ih =>
    rcases hq : q a with _ | _
    · simp [List.filter_cons, hq]
    · simp [List.filter_cons, hq, ih]

theorem strChild_ok_iff (name : String) (validator : String → Bool) (req : Bool)
    (c : Option PyVal) :
    (∃ x, strChild name validator req c = .ok x) ↔ strFieldOk req validator c = true := by
  rcases c with _ | v
  · rcases req with _ | _ <;> simp [strChild, strTypeDeser, strFieldOk, pyFalsy]
  · rcases hf : pyFalsy v with _ | _
    · rcases v with sc | xs
      · rcases sc with s | n | b | _
        · rcases hv : validator s with _ | _ <;>
            simp [strChild, strTypeDeser, strFieldOk, hf, hv]
        · simp [strChild, strTypeDeser, strFieldOk, hf]
        · simp [strChild, strTypeDeser, strFieldOk, hf]
        · simp [pyFalsy] at hf
      · simp [strChild, strTypeDeser, strFieldOk, hf]
    · rcases req with _ | _ <;> simp [strChild, strTypeDeser, strFieldOk, hf]

theorem strChild_ok_shape {name : String} {validator : String → Bool} {req : Bool}
    {c : Option PyVal} {x : Option (String × PyVal)}
    (h : strChild name validator req c = .ok x) :
    x = none ∨ ∃ w, x = some (name, w) := by
  rcases c with _ | v
  · rcases req with _ | _
    · simp [strChild, strTypeDeser, pyFalsy] at h
      exact Or.inl h.symm
    · simp [strChild, strTypeDeser, pyFalsy] at h
  · rcases hf : pyFalsy v with _ | _
    · rcases v with sc | xs
      · rcases sc with s | n | b | _
        · rcases hv : validator s with _ | _
          · simp [strChild, strTypeDeser, hf, hv] at h
          · simp [strChild, strTypeDeser, hf, hv] at h
            exact Or.inr ⟨_, h.symm⟩
        · simp [strChild, strTypeDeser, hf] at h
        · simp [strChild, strTypeDeser, hf] at h
        · simp [pyFalsy] at hf
      · simp [strChild, strTypeDeser, hf] at h
    · rcases req with _ | _
      · simp [strChild, strTypeDeser, hf] at h
        exact Or.inl h.symm
      · simp [strChild, strTypeDeser, hf] at h

theorem anyChild_ok (name : String) (c : Option PyVal) :
    ∃ x, anyChild name c = .ok x := by
  rcases c with _ | v
  · exact ⟨none, rfl⟩
  · exact ⟨some (name, v), rfl⟩

theorem anyChild_ok_shape {name : String} {c : Option PyVal} {x : Option (String × PyVal)}
    (h : anyChild name c = .ok x) : x = none ∨ ∃ w, x = some (name, w) := by
  rcases c with _ | v
  · simp [anyChild] at h
    exact Or.inl h.symm
  · simp [anyChild] at h
    exact Or.inr ⟨v, h.symm⟩

theorem combine4_ok_iff (a b c d : Except PatchErr (Option (String × PyVal))) :
    (∃ r, combine4 a b c d = .ok r)
      ↔ (∃ x, a = .ok x) ∧ (∃ x, b = .ok x) ∧ (∃ x, c = .ok x) ∧ (∃ x, d = .ok x) := by
  rcases a with ea | xa <;> rcases b with eb | xb <;> rcases c with ec | xc <;>
    rcases d with ed | xd <;> simp [combine4]

/-- C6 (amended).  A JSON Patch operation mapping validates exactly when
all its keys are the declared `op`/`path`/`from`/`value`, `op` is one of
the six literals, `path` is a string with an initial segment matching the
pointer grammar `(/\w*)+` (a full-grammar match is not required, since
the validator uses Python `re.match`), and `from`, when present and
non-falsy, satisfies the same check; absent `from`/`value` are dropped
from the output rather than causing failure. -/
theorem c6_patch_operation_characterization (cstruct : List (String × PyVal)) :
    ((∃ out, deserializePatchOp cstruct = .ok out) ↔ patchOpAccepts cstruct = true)
    ∧ ∀ out, deserializePatchOp cstruct = .ok out →
        (alookup "from" cstruct = none → alookup "from" out = none)
        ∧ (alookup "value" cstruct = none → alookup "value" out = none) := by
  constructor
  · rcases hu : (cstruct.filter (fun p => !(allowedPatchKeys.contains p.1))).isEmpty
      with _ | _
    · constructor
      · rintro ⟨out, hout⟩
        simp only [deserializePatchOp, hu] at hout
        cases hout
      · intro hacc
        exfalso
        simp only [patchOpAccepts, Bool.and_eq_true] at hacc
        have hall := hacc.1.1.1
        rw [← filter_bnot_isEmpty, hu] at hall
        cases hall
    · constructor
      · rintro ⟨out, hout⟩
        simp only [deserializePatchOp, hu] at hout
        have h4 := (combine4_ok_iff _ _ _ _).mp ⟨out, hout⟩
        simp only [patchOpAccepts, Bool.and_eq_true]
        refine ⟨⟨⟨?_, ?_⟩, ?_⟩, ?_⟩
        · rw [← filter_bnot_isEmpty]
          exact hu
        · exact (strChild_ok_iff _ _ _ _).mp h4.1
        · exact (strChild_ok_iff _ _ _ _).mp h4.2.1
        · exact (strChild_ok_iff _ _ _ _).mp h4.2.2.1
      · intro hacc
        simp only [patchOpAccepts, Bool.and_eq_true] at hacc
        obtain ⟨⟨⟨hall, hop⟩, hpath⟩, hfrom⟩ := hacc
        simp only [deserializePatchOp, hu]
        exact (combine4_ok_iff _ _ _ _).mpr
          ⟨(strChild_ok_iff _ _ _ _).mpr hop, (strChild_ok_iff _ _ _ _).mpr hpath,
            (strChild_ok_iff _ _ _ _).mpr hfrom, anyChild_ok _ _⟩
  · intro out hout
    rcases hu : (cstruct.filter (fun p => !(allowedPatchKeys.contains p.1))).isEmpty
      with _ | _
    · simp only [deserializePatchOp, hu] at hout
      cases hout
    · simp only [deserializePatchOp, hu] at hout
      cases hA : strChild "op" (fun s => opValues.contains s) true (alookup "op" cstruct) with
      | error e =>
        rw [hA] at hout
        simp [combine4] at hout
      | ok xa =>
      cases hB : strChild "path" rePointerMatch true (alookup "path" cstruct) with
      | error e =>
        rw [hA, hB] at hout
        simp [combine4] at hout
      | ok xb =>
      cases hC : strChild "from" rePointerMatch false (alookup "from" cstruct) with
      | error e =>
        rw [hA, hB, hC] at hout
        simp [combine4] at hout
      | ok xc =>
      cases hD : anyChild "value" (alookup "value" cstruct) with
      | error e =>
        rw [hA, hB, hC, hD] at hout
        simp [combine4] at hout
      | ok xd =>
      rw [hA, hB, hC, hD] at hout
      simp only [combine4] at hout
      injection hout with hout
      subst hout
      constructor
      · intro hfr
        rw [hfr] at hC
        rw [show strChild "from" rePointerMatch false none = Except.ok none from rfl] at hC
        injection hC with hC
        subst hC
        rcases strChild_ok_shape hA with rfl | ⟨wa, rfl⟩ <;>
          rcases strChild_ok_shape hB with rfl | ⟨wb, rfl⟩ <;>
          rcases anyChild_ok_shape hD with rfl | ⟨wd, rfl⟩ <;>
          simp [alookup, List.filterMap]
      · intro hvl
        rw [hvl] at hD
        rw [show anyChild "value" none = Except.ok none from rfl] at hD
        injection hD with hD
        subst hD
        rcases strChild_ok_shape hA with rfl | ⟨wa, rfl⟩ <;>
          rcases strChild_ok_shape hB with rfl | ⟨wb, rfl⟩ <;>
          rcases strChild_ok_shape hC with rfl | ⟨wc, rfl⟩ <;>
          simp [alookup, List.filterMap]

/-- C6 counterexample: the path `"/a b"` is outside the pointer grammar
`(/\w*)+` as a whole string, yet the operation validates, because the
regex check is only a prefix match — refuting the claim's requirement
that `path` satisfy the grammar. -/
theorem c6_counterexample :
    deserializePatchOp [("op", PyVal.scalar (.str "add")),
        ("path", PyVal.scalar (.str "/a b"))]
      = .ok [("op", PyVal.scalar (.str "add")), ("path", PyVal.scalar (.str "/a b"))]
    ∧ fullPointerMatch "/a b" = false := by
  decide

/-- C6 witness: the spec's own examples — a well-formed `add` succeeds,
an unknown `op` fails, and a `path` without a leading slash fails. -/
theorem c6_witness :
    (∃ out, deserializePatchOp [("op", PyVal.scalar (.str "add")),
        ("path", PyVal.scalar (.str "/a/b")), ("value", PyVal.scalar (.int 1))] = .ok out)
    ∧ ¬ (∃ out, deserializePatchOp [("op", PyVal.scalar (.str "bogus")),
        ("path", PyVal.scalar (.str "/a"))] = .ok out)
    ∧ ¬ (∃ out, deserializePatchOp [("op", PyVal.scalar (.str "add")),
        ("path", PyVal.scalar (.str "bad"))] = .ok out) := by
  refine ⟨?_, ?_, ?_⟩
  · exact (c6_patch_operation_characterization _).1.mpr (by decide)
  · intro h
    exact absurd ((c6_patch_operation_characterization _).1.mp h) (by decide)
  · intro h
    exact absurd ((c6_patch_operation_characterization _).1.mp h) (by decide)

/-- C10.  The pointer check on `path` and `from` is only a prefix match:
strings with characters outside `(/\w*)+` after a valid leading segment
pass the validator (and whole operations containing them validate),
because `re.match` anchors at position 0 without covering the string. -/
theorem c10_pointer_validator_accepts_nongrammar :
    rePointerMatch "/a b" = true
    ∧ fullPointerMatch "/a b" = false
    ∧ rePointerMatch "/a!?" = true
    ∧ fullPointerMatch "/a!?" = false
    ∧ deserializePatchOp [("op", PyVal.scalar (.str "move")),
        ("path", PyVal.scalar (.str "/a!?")), ("from", PyVal.scalar (.str "/b c"))]
      = .ok [("op", PyVal.scalar (.str "move")), ("path", PyVal.scalar (.str "/a!?")),
        ("from", PyVal.scalar (.str "/b c"))] := by
  decide

/-! ### Path binding lemmas and claims C1, C3, C8 -/

theorem setField_append (m : List PathField) (f : PathField)
    (h : f.name ∉ m.map PathField.name) : setField m f = m ++ [f] := by
  have ha : m.any (fun g => g.name == f.name) = false := by
    rw [List.any_eq_false]
    intro g hg hbe
    rw [beq_iff_eq] at hbe
    have hm := List.mem_map_of_mem PathField.name hg
    rw [hbe] at hm
    exact h hm
  simp [setField, ha]

theorem buildFieldsLoop_append (env : String → Option String)
    (gens : Option (List (String × String))) (r : String) :
    ∀ (rids : List String) (acc : List PathField),
      ((acc.map PathField.name) ++ rids.map (renameRid r)).Nodup →
      buildFieldsLoop env gens r acc rids
        = acc ++ rids.map (fun rid => ⟨renameRid r rid, resolveRegexp env gens rid⟩) := by
  intro rids
  induction rids with
  | nil =>
    intro acc _
    simp [buildFieldsLoop]
  | cons rid rest ih =>
    intro acc hnd
    simp only [List.map_cons] at hnd
    have hdisj : renameRid r rid ∉ acc.map PathField.name := by
      rw [List.nodup_append] at hnd
      exact fun hmem => hnd.2.2 hmem (List.mem_cons_self _ _)
    simp only [buildFieldsLoop]
    have hih := ih (acc ++ [⟨renameRid r rid, resolveRegexp env gens rid⟩])
      (by simp only [List.map_append, List.map_cons, List.map_nil, List.append_assoc,
            List.singleton_append]
          exact hnd)
    rw [setField_append acc ⟨renameRid r rid, resolveRegexp env gens rid⟩ hdisj, hih]
    simp [List.append_assoc]

/-- C1 (amended).  For a placeholder `rid` bound with a registry: the
generator named by the setting `<rid>_generator` (the key carries the
full placeholder name, `_id` suffix included — not `<x>_generator` for
placeholder `{x}_id`) wins when present and non-empty, resolving to the
located generator's pattern or the baseline when location fails;
otherwise the process-wide `id_generator` setting is used the same way;
otherwise the baseline `StorageBase` pattern; and the bound resource's
own id placeholder is renamed to the literal `id` in the output schema. -/
theorem c1_id_generator_resolution (env : String → Option String)
    (g : List (String × String)) (rid : String) :
    (∀ ne, ne ≠ "" → alookup (rid ++ "_generator") g = some ne →
      resolveRegexp env (some g) rid = (env ne).getD StorageBase_id_generator_regexp)
    ∧ (∀ nd, nd ≠ "" → alookup (rid ++ "_generator") g = none →
        alookup "id_generator" g = some nd →
        resolveRegexp env (some g) rid = (env nd).getD StorageBase_id_generator_regexp)
    ∧ (alookup (rid ++ "_generator") g = none → alookup "id_generator" g = none →
        resolveRegexp env (some g) rid = StorageBase_id_generator_regexp)
    ∧ (∀ r : String, renameRid r (r ++ "_id") = "id")
    ∧ (∀ r rids, (rids.map (renameRid r)).Nodup →
        buildFieldsLoop env (some g) r [] rids
          = rids.map (fun rid2 =>
              ⟨renameRid r rid2, resolveRegexp env (some g) rid2⟩)) := by
  refine ⟨?_, ?_, ?_, ?_, ?_⟩
  · intro ne hne h
    rcases h2 : env ne with _ | rx <;> simp [resolveRegexp, h, pyOrStr, hne, h2]
  · intro nd hnd h hd
    rcases h2 : env nd with _ | rx <;> simp [resolveRegexp, h, hd, pyOrStr, hnd, h2]
  · intro h hd
    simp [resolveRegexp, h, hd, pyOrStr]
  · intro r
    simp [renameRid]
  · intro r rids hnd
    have h := buildFieldsLoop_append env (some g) r rids [] (by simpa using hnd)
    simpa using h

/-- C1 counterexample: for placeholder `bucket_id` of resource `bucket`,
a generator configured under the claimed key `bucket_generator` is
ignored (the baseline pattern results), while the key the code actually
consults is `bucket_id_generator` — the full placeholder name. -/
theorem c1_counterexample :
    resolveRegexp (fun n => if n = "pkg.Gen1" then some "[0-9]" else none)
        (some [("bucket_generator", "pkg.Gen1")]) "bucket_id"
      = StorageBase_id_generator_regexp
    ∧ resolveRegexp (fun n => if n = "pkg.Gen1" then some "[0-9]" else none)
        (some [("bucket_id_generator", "pkg.Gen1")]) "bucket_id"
      = "[0-9]"
    ∧ StorageBase_id_generator_regexp ≠ "[0-9]" := by
  decide

/-- C1 witness: the three resolution outcomes at concrete registries, the
renaming of the bound resource's own placeholder, and a one-placeholder
loop producing the renamed, regex-constrained field. -/
theorem c1_witness :
    resolveRegexp
        (fun n => if n = "pkg.Gen1" then some "[0-9]"
          else if n = "pkg.Gen2" then some "[a-z]+" else none)
        (some [("bar_id_generator", "pkg.Gen1"), ("id_generator", "pkg.Gen2")]) "bar_id"
      = "[0-9]"
    ∧ resolveRegexp
        (fun n => if n = "pkg.Gen1" then some "[0-9]"
          else if n = "pkg.Gen2" then some "[a-z]+" else none)
        (some [("id_generator", "pkg.Gen2")]) "bar_id"
      = "[a-z]+"
    ∧ resolveRegexp
        (fun n => if n = "pkg.Gen1" then some "[0-9]"
          else if n = "pkg.Gen2" then some "[a-z]+" else none)
        (some []) "bar_id"
      = StorageBase_id_generator_regexp
    ∧ renameRid "bar" "bar_id" = "id"
    ∧ buildFieldsLoop
        (fun n => if n = "pkg.Gen1" then some "[0-9]"
          else if n = "pkg.Gen2" then some "[a-z]+" else none)
        (some [("bar_id_generator", "pkg.Gen1"), ("id_generator", "pkg.Gen2")])
        "bar" [] ["bar_id"]
      = [⟨"id", "[0-9]"⟩] := by
  have h1 := c1_id_generator_resolution
    (fun n => if n = "pkg.Gen1" then some "[0-9]"
      else if n = "pkg.Gen2" then some "[a-z]+" else none)
    [("bar_id_generator", "pkg.Gen1"), ("id_generator", "pkg.Gen2")] "bar_id"
  have h2 := c1_id_generator_resolution
    (fun n => if n = "pkg.Gen1" then some "[0-9]"
      else if n = "pkg.Gen2" then some "[a-z]+" else none)
    [("id_generator", "pkg.Gen2")] "bar_id"
  have h3 := c1_id_generator_resolution
    (fun n => if n = "pkg.Gen1" then some "[0-9]"
      else if n = "pkg.Gen2" then some "[a-z]+" else none)
    [] "bar_id"
  refine ⟨?_, ?_, ?_, ?_, ?_⟩
  · exact (h1.1 "pkg.Gen1" (by decide) (by decide)).trans (by decide)
  · exact (h2.2.1 "pkg.Gen2" (by decide) (by decide) (by decide)).trans (by decide)
  · exact h3.2.2.1 (by decide) (by decide)
  · exact h1.2.2.2.1 "bar"
  · exact (h1.2.2.2.2 "bar" ["bar_id"] (by decide)).trans (by decide)

/-- C3.  One colander bind step on the path node is idempotent: whatever
state a successful bind with a context produces, binding that result
again with the same context succeeds and returns the state unchanged —
the same structural schema, hence accepting and rejecting exactly the
same inputs. -/
theorem c3_bind_idempotent (env : String → Option String) (ctx : BindCtx)
    (st st' : PathState) (h : bindPathStep env ctx st = .ok st') :
    bindPathStep env ctx st' = .ok st' := by
  cases st with
  | bound fs =>
    simp only [bindPathStep] at h
    injection h with h
    subst h
    rfl
  | unbound =>
    simp only [bindPathStep] at h
    rcases hb : build_path env ctx.id_generators ctx.resource_name ctx.path with _ | fs | _
    · rw [hb] at h
      injection h with h
      subst h
      simp only [bindPathStep, hb]
    · rw [hb] at h
      injection h with h
      subst h
      rfl
    · rw [hb] at h
      cases h

/-- C3 witness: binding `/buckets/{bucket_id}` for resource `bucket`
produces the `id` field constrained by the baseline pattern; rebinding
that bound schema with the same context returns it unchanged. -/
theorem c3_witness :
    bindPathStep (fun _ => none)
        ⟨some "/buckets/{bucket_id}", some "bucket", none⟩
        (PathState.bound [⟨"id", StorageBase_id_generator_regexp⟩])
      = .ok (PathState.bound [⟨"id", StorageBase_id_generator_regexp⟩]) :=
  c3_bind_idempotent (fun _ => none)
    ⟨some "/buckets/{bucket_id}", some "bucket", none⟩
    PathState.unbound _ (by decide)

/-- C8.  Binding the template `/buckets/{bucket_id}` with an absent
resource name raises `TypeError` (the loop computes
`current_resource_id + '_id'` with `None`), instead of returning the
claimed structural schema — while the same template with a resource name
binds to a one-field schema. -/
theorem c8_null_resource_name_type_error :
    build_path (fun _ => none) none none (some "/buckets/{bucket_id}")
      = BindResult.typeError
    ∧ build_path (fun _ => none) none (some "bucket") (some "/buckets/{bucket_id}")
      = BindResult.bound [⟨"id", StorageBase_id_generator_regexp⟩] := by
  decide
